import Mathlib

/-!
Shallow embedding of `crypto/rand/urandom.c` (BoringSSL system RNG front end).

The C module keeps two process-wide `int` globals, `urandom_fd_requested`
(written by `RAND_set_urandom_fd` under `requested_lock`) and `urandom_fd`
(written exactly once by `init_once` under `CRYPTO_once`).  System calls are
modelled as oracles: every call site reads the next result from a trace that
the environment supplies.  A result of an `open`/`getrandom`-probe style call
is an integer return value paired with the `errno` that would be observed on
failure; a result of a `read`/`getrandom` fill call is either a list of
transferred bytes or an `errno`.  Process termination (`abort()`) and a trace
running out inside a retry loop are explicit outcomes.
-/

/-- The `errno` values the module distinguishes; every other value behaves
like `eother`. -/
inductive Errno
  | eintr
  | eagain
  | enosys
  | eother
deriving DecidableEq

/-- Result of a system call returning an integer: the return value, and the
`errno` in effect if the return value signals failure. -/
structure Call where
  ret : Int
  err : Errno
deriving DecidableEq

/-- Magic value of `urandom_fd`: not yet initialized. -/
def kUnset : Int := -2

/-- Magic value of `urandom_fd`: use the `getrandom` system call. -/
def kHaveGetrandom : Int := -3

/-- FIPS entropy threshold in bits (`kBitsNeeded`). -/
def kBitsNeeded : Int := 256

/-- Diagnostics written to stderr, in order of emission. -/
inductive Diag
  | poolNotSeeded
  | entcntFailed
  | lowEntropy (haveBits : Int)
deriving DecidableEq

/-- The `do ... while (ret == -1 && errno == EINTR)` retry loop shared by the
blocking `getrandom` fetch and the `open` of `/dev/urandom`: consume trace
entries while they are interrupted calls, returning the first result that is
not an interruption together with the unconsumed suffix; `none` if the trace
runs out while still interrupted. -/
def retryEINTR : List Call → Option (Call × List Call)
  | [] => none
  | c :: rest =>
    if c.ret = -1 ∧ c.err = .eintr then retryEINTR rest else some (c, rest)

/-- Result of one `read`/`getrandom` transfer inside `fill_with_entropy`:
either `r = bs.length ≥ 0` bytes transferred, or `r = -1` with an errno. -/
inductive ReadRes
  | ok (bs : List Nat)
  | err (e : Errno)
deriving DecidableEq

/-- Outcome of `fill_with_entropy`: `filled` is the C return value 1 with the
bytes written to `out`; `failed` is the C return value 0 (the bytes written so
far are recorded); `fillAborted` is the `abort()` reached when
`urandom_fd == kHaveGetrandom` but the build has no `getrandom` support;
`fillStuck` means the syscall trace ran out inside the loop. -/
inductive FillOut
  | filled (data : List Nat)
  | failed (data : List Nat)
  | fillAborted
  | fillStuck
deriving DecidableEq

/-- `fill_with_entropy(out, len)`: loop while `len > 0`; on each iteration
issue `getrandom` (modern) or `read` (legacy), retrying while the result is
`-1`/`EINTR`; any other `r <= 0` returns 0; otherwise advance `out` by `r`
and decrease `len` by `r`.  `acc` is the contents of the output buffer
written so far, `fd` is the committed `urandom_fd`, `useGR` is the
`USE_SYS_getrandom` build flag. -/
def fill_with_entropy (fd : Int) (useGR : Bool) :
    Nat → List Nat → List ReadRes → FillOut
  | 0, acc, _ => .filled acc
  | len+1, acc, tr =>
    if fd = kHaveGetrandom ∧ useGR = false then .fillAborted
    else
      match tr with
      | [] => .fillStuck
      | .err .eintr :: rest => fill_with_entropy fd useGR (len+1) acc rest
      | .err .eagain :: _ => .failed acc
      | .err .enosys :: _ => .failed acc
      | .err .eother :: _ => .failed acc
      | .ok bs :: rest =>
        if bs.length = 0 then .failed acc
        else fill_with_entropy fd useGR (len + 1 - bs.length) (acc ++ bs) rest
termination_by _ _ tr => tr.length

/-- Build flags and system-call oracles consumed by `init_once`.
`grProbe` is the result of the single non-blocking one-byte `getrandom`
probe; `grBlock` the results of the blocking one-byte `getrandom` calls;
`openTr` the results of `open("/dev/urandom", O_RDONLY)`; `fipsTr` the
results of `ioctl(fd, RNDGETENTCNT, ...)` (`none` = nonzero return, i.e.
failure; `some bits` = success writing `bits`); `getfd` the result of
`fcntl(fd, F_GETFD)`; `setfd` the return of `fcntl(fd, F_SETFD, ...)`. -/
structure OSTraces where
  useGetrandom : Bool
  fips : Bool
  grProbe : Call
  grBlock : List Call
  openTr : List Call
  fipsTr : List (Option Int)
  getfd : Call
  setfd : Int
deriving DecidableEq

/-- Outcome of the FIPS entropy gate loop: `proceed` records how many
`RNDGETENTCNT` queries were issued and the diagnostics emitted. -/
inductive FipsOut
  | proceed (polls : Nat) (diags : List Diag)
  | fipsAborted (diags : List Diag)
  | fipsStuck
deriving DecidableEq

/-- The `BORINGSSL_FIPS` polling loop in `init_once`: query `RNDGETENTCNT`;
a failing query prints a diagnostic and aborts; a reading of at least
`kBitsNeeded` bits exits the loop; otherwise print a diagnostic on the first
under-threshold reading only, sleep, and re-poll. -/
def fipsLoop : List (Option Int) → Bool → Nat → List Diag → FipsOut
  | [], _, _, _ => .fipsStuck
  | none :: _, _, _, ds => .fipsAborted (ds ++ [.entcntFailed])
  | some bits :: rest, first, polls, ds =>
    if kBitsNeeded ≤ bits then .proceed (polls + 1) ds
    else fipsLoop rest false (polls + 1)
      (if first then ds ++ [.lowEntropy bits] else ds)

/-- Outcome of `init_once`: `done fd polls diags cloexec` is a normal return
with `urandom_fd = fd`, `polls` `RNDGETENTCNT` queries issued, `diags` the
diagnostics emitted, and `cloexec` whether `fcntl(fd, F_SETFD, flags |
FD_CLOEXEC)` was performed; `aborted` is `abort()`; `stuck` means an oracle
trace ran out inside a retry loop. -/
inductive InitOut
  | done (fd : Int) (polls : Nat) (diags : List Diag) (cloexec : Bool)
  | aborted (diags : List Diag)
  | stuck
deriving DecidableEq

/-- The legacy-device half of `init_once`, entered when the `getrandom`
probe path did not commit: open `/dev/urandom` unless a requested fd is
pending, abort if the handle is negative, run the FIPS gate when enabled,
then mark the handle close-on-exec (tolerating only `ENOSYS` from
`F_GETFD`) and commit it. -/
def legacyFrom (fd0 : Int) (os : OSTraces) (ds : List Diag) : InitOut :=
  match (if fd0 = kUnset then (retryEINTR os.openTr).map (fun p => p.1.ret)
         else some fd0) with
  | none => .stuck
  | some fd =>
    if fd < 0 then .aborted ds
    else
      match (if os.fips then fipsLoop os.fipsTr true 0 ds
             else .proceed 0 ds) with
      | .fipsStuck => .stuck
      | .fipsAborted ds2 => .aborted ds2
      | .proceed polls ds2 =>
        if os.getfd.ret = -1 then
          if os.getfd.err ≠ .enosys then .aborted ds2
          else .done fd polls ds2 false
        else
          if os.setfd = -1 then .aborted ds2
          else .done fd polls ds2 true

/-- `init_once`: read the requested fd, probe `getrandom` non-blockingly
when available (committing `kHaveGetrandom` on success, or after a blocking
fetch when the probe failed with `EAGAIN`), otherwise fall through to the
legacy device. -/
def init_once (requested : Int) (os : OSTraces) : InitOut :=
  if os.useGetrandom then
    if os.grProbe.ret = 1 then .done kHaveGetrandom 0 [] false
    else if os.grProbe.ret = -1 ∧ os.grProbe.err = .eagain then
      match retryEINTR os.grBlock with
      | none => .stuck
      | some (c, _) =>
        if c.ret = 1 then .done kHaveGetrandom 0 [.poolNotSeeded] false
        else legacyFrom requested os [.poolNotSeeded]
    else legacyFrom requested os []
  else legacyFrom requested os []

/-- The module's mutable globals: `urandom_fd_requested`, `urandom_fd`, and
whether the `CRYPTO_once` guard has already run `init_once`. -/
structure ModState where
  urandom_fd_requested : Int
  urandom_fd : Int
  onceDone : Bool
deriving DecidableEq

/-- The state at process start. -/
def initialState : ModState := ⟨kUnset, kUnset, false⟩

/-- Ways a run can fail to return: `crashAbort` is `abort()`, `crashStuck`
means an oracle trace ran out inside a retry loop. -/
inductive Crash
  | crashAbort
  | crashStuck
deriving DecidableEq

/-- `CRYPTO_once(&once, init_once)`: run `init_once` if it has not run yet;
its sole committed effect is the final write to `urandom_fd`. -/
def CRYPTO_once (st : ModState) (os : OSTraces) : Except Crash ModState :=
  if st.onceDone then .ok st
  else
    match init_once st.urandom_fd_requested os with
    | .done fd _ _ _ => .ok { st with urandom_fd := fd, onceDone := true }
    | .aborted _ => .error .crashAbort
    | .stuck => .error .crashStuck

/-- Successful return of `RAND_set_urandom_fd`: the new global state and the
descriptors the call closed. -/
structure SetFdOk where
  st : ModState
  closed : List Int
deriving DecidableEq

/-- `RAND_set_urandom_fd(fd)`: `dupRes` is the result of `dup(fd)` (negative
= failure, which aborts).  Store the duplicate as the requested fd, force
the once, then: if `getrandom` was committed, close the duplicate; if a
different fd was committed, abort. -/
def RAND_set_urandom_fd (st : ModState) (dupRes : Int) (os : OSTraces) :
    Except Crash SetFdOk :=
  if dupRes < 0 then .error .crashAbort
  else
    let st1 := { st with urandom_fd_requested := dupRes }
    match CRYPTO_once st1 os with
    | .error c => .error c
    | .ok st2 =>
      if st2.urandom_fd = kHaveGetrandom then .ok ⟨st2, [dupRes]⟩
      else if st2.urandom_fd ≠ dupRes then .error .crashAbort
      else .ok ⟨st2, []⟩

/-- `CRYPTO_sysrand(out, requested)`: return at once when `requested == 0`;
otherwise force the once, fill, and abort if the fill reports failure.  On a
normal return the result carries the new global state and the bytes written
to `out`. -/
def CRYPTO_sysrand (st : ModState) (os : OSTraces) (tr : List ReadRes)
    (requested : Nat) : Except Crash (ModState × List Nat) :=
  if requested = 0 then .ok (st, [])
  else
    match CRYPTO_once st os with
    | .error c => .error c
    | .ok st2 =>
      match fill_with_entropy st2.urandom_fd os.useGetrandom requested [] tr with
      | .filled data => .ok (st2, data)
      | .failed _ => .error .crashAbort
      | .fillAborted => .error .crashAbort
      | .fillStuck => .error .crashStuck

/-! ### Lemmas about the fill engine -/

theorem fill_zero (fd : Int) (useGR : Bool) (acc : List Nat)
    (tr : List ReadRes) : fill_with_entropy fd useGR 0 acc tr = .filled acc := by
  simp [fill_with_entropy]

theorem fill_step_ok (fd : Int) (useGR : Bool)
    (hfd : ¬(fd = kHaveGetrandom ∧ useGR = false))
    (len : Nat) (hlen : 0 < len) (acc bs : List Nat) (rest : List ReadRes)
    (hbs : bs ≠ []) :
    fill_with_entropy fd useGR len acc (.ok bs :: rest)
      = fill_with_entropy fd useGR (len - bs.length) (acc ++ bs) rest := by
  obtain ⟨m, rfl⟩ : ∃ m, len = m + 1 :=
    ⟨len - 1, (Nat.succ_pred_eq_of_pos hlen).symm⟩
  have hbs0 : bs.length ≠ 0 := by
    simpa [List.length_eq_zero] using hbs
  simp [fill_with_entropy, hfd, hbs0]

theorem fill_step_eintr (fd : Int) (useGR : Bool)
    (hfd : ¬(fd = kHaveGetrandom ∧ useGR = false))
    (len : Nat) (hlen : 0 < len) (acc : List Nat) (rest : List ReadRes) :
    fill_with_entropy fd useGR len acc (.err .eintr :: rest)
      = fill_with_entropy fd useGR len acc rest := by
  obtain ⟨m, rfl⟩ : ∃ m, len = m + 1 :=
    ⟨len - 1, (Nat.succ_pred_eq_of_pos hlen).symm⟩
  simp [fill_with_entropy, hfd]

theorem fill_step_err (fd : Int) (useGR : Bool)
    (hfd : ¬(fd = kHaveGetrandom ∧ useGR = false))
    (len : Nat) (hlen : 0 < len) (acc : List Nat) (e : Errno)
    (he : e ≠ .eintr) (rest : List ReadRes) :
    fill_with_entropy fd useGR len acc (.err e :: rest) = .failed acc := by
  obtain ⟨m, rfl⟩ : ∃ m, len = m + 1 :=
    ⟨len - 1, (Nat.succ_pred_eq_of_pos hlen).symm⟩
  cases e <;> simp_all [fill_with_entropy, hfd]

theorem fill_step_ok_nil (fd : Int) (useGR : Bool)
    (hfd : ¬(fd = kHaveGetrandom ∧ useGR = false))
    (len : Nat) (hlen : 0 < len) (acc : List Nat) (rest : List ReadRes) :
    fill_with_entropy fd useGR len acc (.ok [] :: rest) = .failed acc := by
  obtain ⟨m, rfl⟩ : ∃ m, len = m + 1 :=
    ⟨len - 1, (Nat.succ_pred_eq_of_pos hlen).symm⟩
  simp [fill_with_entropy, hfd]

/-- Running the fill loop over a block of successful transfers whose total
does not exceed the remaining length appends all of their bytes and leaves
the loop at the reduced length on the remaining trace. -/
theorem fill_chunks (fd : Int) (useGR : Bool)
    (hfd : ¬(fd = kHaveGetrandom ∧ useGR = false)) :
    ∀ (chunks : List (List Nat)) (acc : List Nat) (L : Nat)
      (tail : List ReadRes),
      (∀ bs ∈ chunks, bs ≠ []) → (chunks.map List.length).sum ≤ L →
      fill_with_entropy fd useGR L acc (chunks.map ReadRes.ok ++ tail)
        = fill_with_entropy fd useGR (L - (chunks.map List.length).sum)
            (acc ++ chunks.flatten) tail
  | [], acc, L, tail, _, _ => by simp
  | bs :: ch, acc, L, tail, hne, hsum => by
    have hbs : bs ≠ [] := hne bs (List.mem_cons_self bs ch)
    have hbs1 : 1 ≤ bs.length := by
      have := List.length_pos.mpr hbs
      omega
    have hsum' : bs.length + (ch.map List.length).sum ≤ L := by
      simpa using hsum
    have hL : 0 < L := by omega
    have h1 : fill_with_entropy fd useGR L acc
        (ReadRes.ok bs :: (ch.map ReadRes.ok ++ tail))
          = fill_with_entropy fd useGR (L - bs.length) (acc ++ bs)
              (ch.map ReadRes.ok ++ tail) :=
      fill_step_ok fd useGR hfd L hL acc bs _ hbs
    have h2 := fill_chunks fd useGR hfd ch (acc ++ bs) (L - bs.length) tail
      (fun b hb => hne b (List.mem_cons_of_mem bs hb)) (by omega)
    have h3 : L - bs.length - (ch.map List.length).sum
        = L - ((bs :: ch).map List.length).sum := by
      simp only [List.map_cons, List.sum_cons]
      omega
    simp only [List.map_cons, List.cons_append] at *
    rw [h1, h2, h3]
    simp

/-- C1: for every positive requested length, `fill_with_entropy` advances
the output cursor by exactly the number of bytes each successful transfer
delivered and decrements the remaining count by the same amount, and a trace
of successful transfers (each nonempty) totalling exactly `L` bytes makes it
return success with precisely the concatenation of the transferred chunks —
so each output position is written exactly once and exactly `L` bytes are
produced, even when every call delivers a single byte. -/
theorem fill_with_entropy_exact_fill (fd : Int) (useGR : Bool)
    (hfd : ¬(fd = kHaveGetrandom ∧ useGR = false)) :
    (∀ (len : Nat) (acc bs : List Nat) (rest : List ReadRes),
        0 < bs.length → bs.length ≤ len →
        fill_with_entropy fd useGR len acc (.ok bs :: rest)
          = fill_with_entropy fd useGR (len - bs.length) (acc ++ bs) rest) ∧
    (∀ chunks : List (List Nat), (∀ bs ∈ chunks, bs ≠ []) →
        fill_with_entropy fd useGR (chunks.map List.length).sum []
            (chunks.map ReadRes.ok)
          = .filled chunks.flatten) := by
  constructor
  · intro len acc bs rest hpos hle
    exact fill_step_ok fd useGR hfd len (by omega) acc bs rest
      (by simpa [List.length_eq_zero] using Nat.pos_iff_ne_zero.mp hpos)
  · intro chunks hne
    have h := fill_chunks fd useGR hfd chunks [] (chunks.map List.length).sum
      [] hne (le_refl _)
    simpa [fill_zero] using h

/-- Witness for C1 at a concrete mechanism delivering one byte per call. -/
theorem fill_with_entropy_exact_fill_witness :
    (¬((5 : Int) = kHaveGetrandom ∧ false = false)) ∧
    fill_with_entropy 5 false 3 []
        [.ok [10], .ok [11], .ok [12]] = .filled [10, 11, 12] := by
  refine ⟨by decide, ?_⟩
  have h := (fill_with_entropy_exact_fill 5 false (by decide)).2
    [[10], [11], [12]] (by simp)
  simpa using h

/-- C3: a request of length 0 returns immediately: no bytes are written, the
one-time guard is not triggered, and the module state is untouched. -/
theorem CRYPTO_sysrand_zero_request (st : ModState) (os : OSTraces)
    (tr : List ReadRes) : CRYPTO_sysrand st os tr 0 = .ok (st, []) := by
  simp [CRYPTO_sysrand]

/-- C2: for every positive requested length, a zero or negative transfer
whose errno is not `EINTR` after any block of successful short transfers
makes `CRYPTO_sysrand` abort, and when the modern mechanism is unavailable
and the legacy device fails to open, `CRYPTO_sysrand` aborts; it never
returns a partial byte count or an error value. -/
theorem CRYPTO_sysrand_fatal_on_failure :
    (∀ (st : ModState) (os : OSTraces) (chunks : List (List Nat)) (e : Errno)
        (rest : List ReadRes) (L : Nat),
        st.onceDone = true →
        ¬(st.urandom_fd = kHaveGetrandom ∧ os.useGetrandom = false) →
        (∀ bs ∈ chunks, bs ≠ []) →
        (chunks.map List.length).sum < L →
        e ≠ .eintr →
        CRYPTO_sysrand st os (chunks.map ReadRes.ok ++ .err e :: rest) L
          = .error .crashAbort) ∧
    (∀ (st : ModState) (os : OSTraces) (chunks : List (List Nat))
        (rest : List ReadRes) (L : Nat),
        st.onceDone = true →
        ¬(st.urandom_fd = kHaveGetrandom ∧ os.useGetrandom = false) →
        (∀ bs ∈ chunks, bs ≠ []) →
        (chunks.map List.length).sum < L →
        CRYPTO_sysrand st os (chunks.map ReadRes.ok ++ .ok [] :: rest) L
          = .error .crashAbort) ∧
    (∀ (st : ModState) (os : OSTraces) (tr : List ReadRes) (c : Call)
        (crest : List Call) (L : Nat),
        st.onceDone = false →
        st.urandom_fd_requested = kUnset →
        os.useGetrandom = false →
        retryEINTR os.openTr = some (c, crest) →
        c.ret < 0 →
        0 < L →
        CRYPTO_sysrand st os tr L = .error .crashAbort) := by
  refine ⟨?_, ?_, ?_⟩
  · intro st os chunks e rest L hdone hfd hne hsum he
    have hL : L ≠ 0 := by
      have : 0 ≤ (chunks.map List.length).sum := Nat.zero_le _
      omega
    have honce : CRYPTO_once st os = .ok st := by simp [CRYPTO_once, hdone]
    have hfill := fill_chunks st.urandom_fd os.useGetrandom hfd chunks []
      L (.err e :: rest) hne (le_of_lt hsum)
    have hstep := fill_step_err st.urandom_fd os.useGetrandom hfd
      (L - (chunks.map List.length).sum) (by omega) ([] ++ chunks.flatten)
      e he rest
    simp only [CRYPTO_sysrand, hL, honce, hfill, hstep]
    simp
  · intro st os chunks rest L hdone hfd hne hsum
    have hL : L ≠ 0 := by
      have : 0 ≤ (chunks.map List.length).sum := Nat.zero_le _
      omega
    have honce : CRYPTO_once st os = .ok st := by simp [CRYPTO_once, hdone]
    have hfill := fill_chunks st.urandom_fd os.useGetrandom hfd chunks []
      L (.ok [] :: rest) hne (le_of_lt hsum)
    have hstep := fill_step_ok_nil st.urandom_fd os.useGetrandom hfd
      (L - (chunks.map List.length).sum) (by omega) ([] ++ chunks.flatten)
      rest
    simp only [CRYPTO_sysrand, hL, honce, hfill, hstep]
    simp
  · intro st os tr c crest L hdone hreq hug hopen hret hLpos
    have hinit : init_once st.urandom_fd_requested os = .aborted [] := by
      simp [init_once, hug, legacyFrom, hreq, hopen, hret]
    have honce : CRYPTO_once st os = .error .crashAbort := by
      simp [CRYPTO_once, hdone, hinit]
    have hL : L ≠ 0 := by omega
    simp [CRYPTO_sysrand, hL, honce]

/-- Witness for C2: with the modern mechanism unavailable and the legacy
device failing to open, a 4-byte request aborts. -/
theorem CRYPTO_sysrand_fatal_on_failure_witness :
    initialState.onceDone = false ∧
    initialState.urandom_fd_requested = kUnset ∧
    retryEINTR [⟨-1, .eother⟩] = some (⟨-1, .eother⟩, []) ∧
    CRYPTO_sysrand initialState
        ⟨false, false, ⟨-1, .eother⟩, [], [⟨-1, .eother⟩], [], ⟨0, .eother⟩, 0⟩
        [] 4 = .error .crashAbort := by
  refine ⟨rfl, rfl, by decide, ?_⟩
  exact CRYPTO_sysrand_fatal_on_failure.2.2 initialState
    ⟨false, false, ⟨-1, .eother⟩, [], [⟨-1, .eother⟩], [], ⟨0, .eother⟩, 0⟩
    [] ⟨-1, .eother⟩ [] 4 rfl rfl rfl (by decide) (by decide) (by decide)

/-! ### EINTR transparency -/

theorem retryEINTR_skip (pre : List Call)
    (hpre : ∀ c ∈ pre, c = ⟨-1, .eintr⟩) (tr : List Call) :
    retryEINTR (pre ++ tr) = retryEINTR tr := by
  induction pre with
  | nil => rfl
  | cons c pre ih =>
    have hc : c = ⟨-1, Errno.eintr⟩ := hpre c (List.mem_cons_self c pre)
    subst hc
    rw [List.cons_append]
    show retryEINTR (⟨-1, Errno.eintr⟩ :: (pre ++ tr)) = retryEINTR tr
    rw [retryEINTR, if_pos ⟨rfl, rfl⟩]
    exact ih (fun c hc => hpre c (List.mem_cons_of_mem _ hc))

theorem fill_abort (fd : Int) (useGR : Bool)
    (habort : fd = kHaveGetrandom ∧ useGR = false) (len : Nat)
    (hlen : 0 < len) (acc : List Nat) (tr : List ReadRes) :
    fill_with_entropy fd useGR len acc tr = .fillAborted := by
  obtain ⟨h1, h2⟩ := habort
  subst h1
  subst h2
  obtain ⟨m, rfl⟩ : ∃ m, len = m + 1 :=
    ⟨len - 1, (Nat.succ_pred_eq_of_pos hlen).symm⟩
  cases tr with
  | nil => simp [fill_with_entropy]
  | cons r rest =>
    cases r with
    | ok bs => simp [fill_with_entropy]
    | err e => cases e <;> simp [fill_with_entropy]

theorem fill_eintr_skip (fd : Int) (useGR : Bool) (len : Nat)
    (acc : List Nat) (pre : List ReadRes)
    (hpre : ∀ r ∈ pre, r = .err .eintr) (tr : List ReadRes) :
    fill_with_entropy fd useGR len acc (pre ++ tr)
      = fill_with_entropy fd useGR len acc tr := by
  induction pre with
  | nil => rfl
  | cons r pre ih =>
    have hr : r = ReadRes.err .eintr := hpre r (List.mem_cons_self r pre)
    subst hr
    cases len with
    | zero => rw [fill_zero, fill_zero]
    | succ m =>
      by_cases habort : fd = kHaveGetrandom ∧ useGR = false
      · rw [fill_abort fd useGR habort (m+1) (Nat.succ_pos m),
          fill_abort fd useGR habort (m+1) (Nat.succ_pos m)]
      · rw [List.cons_append,
          fill_step_eintr fd useGR habort (m+1) (Nat.succ_pos m) acc (pre ++ tr)]
        exact ih (fun r hr => hpre r (List.mem_cons_of_mem _ hr))

/-- C4 counterexample: the Selector's non-blocking probe is issued exactly
once and is not retried on `EINTR`: with an interrupted probe the Selector
commits the legacy device, while with an immediately successful probe it
commits the modern mechanism — the two outcomes differ, so an interrupted
probe does not behave like an immediately successful one. -/
theorem probe_eintr_changes_outcome :
    init_once kUnset
        ⟨true, false, ⟨-1, .eintr⟩, [], [⟨7, .eother⟩], [], ⟨0, .eother⟩, 0⟩
      = .done 7 0 [] true ∧
    init_once kUnset
        ⟨true, false, ⟨1, .eother⟩, [], [⟨7, .eother⟩], [], ⟨0, .eother⟩, 0⟩
      = .done kHaveGetrandom 0 [] false ∧
    (InitOut.done 7 0 [] true ≠ .done kHaveGetrandom 0 [] false) := by
  refine ⟨by decide, by decide, by decide⟩

/-- C4 (amended): an interrupted failure at the Selector's blocking fetch,
at the legacy-device open, and at the fill engine's read/fetch loop (either
mechanism) is retried silently with unbounded attempts and never changes the
outcome: any finite run of interrupted results before the rest of the trace
behaves identically to the rest of the trace alone.  (The non-blocking
probe, by contrast, is issued exactly once and is not retried.) -/
theorem eintr_retried_transparently :
    (∀ (req : Int) (os : OSTraces) (pre tr : List Call),
        (∀ c ∈ pre, c = ⟨-1, .eintr⟩) →
        init_once req { os with grBlock := pre ++ tr }
          = init_once req { os with grBlock := tr }) ∧
    (∀ (req : Int) (os : OSTraces) (pre tr : List Call),
        (∀ c ∈ pre, c = ⟨-1, .eintr⟩) →
        init_once req { os with openTr := pre ++ tr }
          = init_once req { os with openTr := tr }) ∧
    (∀ (fd : Int) (useGR : Bool) (len : Nat) (acc : List Nat)
        (pre tr : List ReadRes),
        (∀ r ∈ pre, r = .err .eintr) →
        fill_with_entropy fd useGR len acc (pre ++ tr)
          = fill_with_entropy fd useGR len acc tr) := by
  refine ⟨?_, ?_, ?_⟩
  · intro req os pre tr hpre
    simp [init_once, legacyFrom, retryEINTR_skip pre hpre tr]
  · intro req os pre tr hpre
    simp [init_once, legacyFrom, retryEINTR_skip pre hpre tr]
  · intro fd useGR len acc pre tr hpre
    exact fill_eintr_skip fd useGR len acc pre hpre tr

/-- Witness for amended C4: one interrupted read before a successful one
fills identically. -/
theorem eintr_retried_transparently_witness :
    (∀ r ∈ [ReadRes.err .eintr], r = ReadRes.err .eintr) ∧
    fill_with_entropy 5 false 1 [] ([.err .eintr] ++ [.ok [9]])
      = fill_with_entropy 5 false 1 [] [.ok [9]] := by
  refine ⟨by simp, ?_⟩
  exact eintr_retried_transparently.2.2 5 false 1 [] [.err .eintr] [.ok [9]]
    (by simp)

/-- C5 counterexample: after an `EAGAIN` probe, a non-interrupted failure of
the blocking fetch makes the Selector fall back to the legacy device: the
committed descriptor is 4, not `kHaveGetrandom`, so the blocking fetch is
not repeated until success and the legacy fallback does happen. -/
theorem blocking_fetch_failure_falls_back :
    init_once kUnset
        ⟨true, false, ⟨-1, .eagain⟩, [⟨-1, .eother⟩], [⟨4, .eother⟩], [],
          ⟨0, .eother⟩, 0⟩
      = .done 4 0 [.poolNotSeeded] true ∧ (4 : Int) ≠ kHaveGetrandom := by
  refine ⟨by decide, by decide⟩

/-- C5 (amended): on an `EAGAIN` probe the "pool not seeded" diagnostic is
emitted and the one-byte fetch is redone in blocking mode, retrying
transparently on interruption; if the blocking fetch returns success the
committed state is the modern mechanism and the legacy device is not used;
a non-interrupted failure of the blocking fetch instead falls through to
the legacy device. -/
theorem init_once_eagain_blocking (os : OSTraces) (req : Int) (c : Call)
    (crest : List Call) (hu : os.useGetrandom = true)
    (hp : os.grProbe = ⟨-1, .eagain⟩)
    (hb : retryEINTR os.grBlock = some (c, crest)) :
    (c.ret = 1 →
      init_once req os = .done kHaveGetrandom 0 [.poolNotSeeded] false) ∧
    (c.ret ≠ 1 →
      init_once req os = legacyFrom req os [.poolNotSeeded]) := by
  constructor <;> intro hc <;> simp [init_once, hu, hp, hb, hc]

/-- Witness for amended C5: probe `EAGAIN`, one interruption, then a
successful blocking fetch commits the modern mechanism. -/
theorem init_once_eagain_blocking_witness :
    retryEINTR [⟨-1, .eintr⟩, ⟨1, .eother⟩] = some (⟨1, .eother⟩, []) ∧
    init_once kUnset
        ⟨true, false, ⟨-1, .eagain⟩, [⟨-1, .eintr⟩, ⟨1, .eother⟩], [], [],
          ⟨0, .eother⟩, 0⟩
      = .done kHaveGetrandom 0 [.poolNotSeeded] false := by
  refine ⟨by decide, ?_⟩
  exact (init_once_eagain_blocking
    ⟨true, false, ⟨-1, .eagain⟩, [⟨-1, .eintr⟩, ⟨1, .eother⟩], [], [],
      ⟨0, .eother⟩, 0⟩
    kUnset ⟨1, .eother⟩ [] rfl rfl (by decide)).1 rfl

/-- C6: after the Selector has resolved, `RAND_set_urandom_fd` with the
modern mechanism committed stores the duplicate, closes it, and returns
normally; with a committed handle different from the duplicate it aborts. -/
theorem RAND_set_urandom_fd_after_resolution (st : ModState) (os : OSTraces)
    (d : Int) (hdone : st.onceDone = true) (hd : 0 ≤ d) :
    (st.urandom_fd = kHaveGetrandom →
      RAND_set_urandom_fd st d os
        = .ok ⟨{ st with urandom_fd_requested := d }, [d]⟩) ∧
    (st.urandom_fd ≠ kHaveGetrandom → st.urandom_fd ≠ d →
      RAND_set_urandom_fd st d os = .error .crashAbort) := by
  have hneg : ¬(d < 0) := by omega
  constructor
  · intro hm
    simp [RAND_set_urandom_fd, hneg, CRYPTO_once, hdone, hm]
  · intro hm hne
    simp [RAND_set_urandom_fd, hneg, CRYPTO_once, hdone, hm, hne]

/-- Witness for C6: with the modern mechanism already committed, setting a
fresh duplicate 9 closes it and returns normally. -/
theorem RAND_set_urandom_fd_after_resolution_witness :
    (⟨5, kHaveGetrandom, true⟩ : ModState).onceDone = true ∧ (0 : Int) ≤ 9 ∧
    RAND_set_urandom_fd ⟨5, kHaveGetrandom, true⟩ 9
        ⟨false, false, ⟨1, .eother⟩, [], [], [], ⟨0, .eother⟩, 0⟩
      = .ok ⟨⟨9, kHaveGetrandom, true⟩, [9]⟩ := by
  refine ⟨rfl, by decide, ?_⟩
  have h := (RAND_set_urandom_fd_after_resolution ⟨5, kHaveGetrandom, true⟩
    ⟨false, false, ⟨1, .eother⟩, [], [], [], ⟨0, .eother⟩, 0⟩ 9 rfl
    (by decide)).1 rfl
  simpa using h

/-- C7 counterexample: `RAND_set_urandom_fd` itself forces the Selector to
run, so in a two-call sequence starting from the unresolved initial state
the second call does not store its duplicate and return normally: the first
call commits its duplicate 5 as the legacy handle and succeeds, and the
second call, with fresh duplicate 6, aborts. -/
theorem set_urandom_fd_second_call_aborts :
    RAND_set_urandom_fd initialState 5
        ⟨false, false, ⟨-1, .eother⟩, [], [], [], ⟨0, .eother⟩, 0⟩
      = .ok ⟨⟨5, 5, true⟩, []⟩ ∧
    RAND_set_urandom_fd ⟨5, 5, true⟩ 6
        ⟨false, false, ⟨-1, .eother⟩, [], [], [], ⟨0, .eother⟩, 0⟩
      = .error .crashAbort := by
  exact ⟨rfl, rfl⟩

/-- C7 (amended): each call duplicates the caller's handle and stores the
duplicate under the write lock as the pending requested value, but it also
forces the Selector to run, so only the first call can find the Selector
unresolved: a first call from an unresolved state whose duplicate is
adopted as the legacy device returns without fatal error with the duplicate
stored, while a call made after resolution aborts whenever the committed
state is a legacy handle different from the new duplicate. -/
theorem set_override_lifecycle (st : ModState) (os : OSTraces) (d : Int)
    (hd : 0 ≤ d) :
    (st.onceDone = false → os.useGetrandom = false → os.fips = false →
      os.getfd.ret ≠ -1 → os.setfd ≠ -1 →
      RAND_set_urandom_fd st d os = .ok ⟨⟨d, d, true⟩, []⟩) ∧
    (st.onceDone = true → st.urandom_fd ≠ kHaveGetrandom →
      st.urandom_fd ≠ d →
      RAND_set_urandom_fd st d os = .error .crashAbort) := by
  have hneg : ¬(d < 0) := by omega
  have hdk : ¬(d = kUnset) := by
    simp only [kUnset]
    omega
  have hdg : ¬(d = kHaveGetrandom) := by
    simp only [kHaveGetrandom]
    omega
  constructor
  · intro h1 h2 h3 h4 h5
    have hinit : init_once d os = .done d 0 [] true := by
      simp [init_once, h2, legacyFrom, hdk, hneg, h3, h4, h5]
    simp [RAND_set_urandom_fd, hneg, CRYPTO_once, h1, hinit, hdg]
  · intro h1 h2 h3
    simp [RAND_set_urandom_fd, hneg, CRYPTO_once, h1, h2, h3]

/-- Witness for amended C7: a first call from the unresolved initial state
stores duplicate 5, adopts it, and returns normally. -/
theorem set_override_lifecycle_witness :
    (0 : Int) ≤ 5 ∧ initialState.onceDone = false ∧
    RAND_set_urandom_fd initialState 5
        ⟨false, false, ⟨-1, .eother⟩, [], [], [], ⟨0, .eother⟩, 0⟩
      = .ok ⟨⟨5, 5, true⟩, []⟩ := by
  refine ⟨by decide, rfl, ?_⟩
  exact (set_override_lifecycle initialState
    ⟨false, false, ⟨-1, .eother⟩, [], [], [], ⟨0, .eother⟩, 0⟩ 5
    (by decide)).1 rfl rfl rfl (by decide) (by decide)

/-! ### The FIPS entropy gate -/

theorem fipsLoop_under (qs : List Int) (hq : ∀ q ∈ qs, q < kBitsNeeded)
    (tail : List (Option Int)) (p : Nat) (ds : List Diag) :
    fipsLoop (qs.map some ++ tail) false p ds
      = fipsLoop tail false (p + qs.length) ds := by
  induction qs generalizing p with
  | nil => simp
  | cons q qs ih =>
    have hlt : ¬(kBitsNeeded ≤ q) := by
      have := hq q (List.mem_cons_self q qs)
      omega
    have ih' := ih (fun x hx => hq x (List.mem_cons_of_mem q hx)) (p + 1)
    rw [List.map_cons, List.cons_append]
    show fipsLoop (some q :: (qs.map some ++ tail)) false p ds = _
    rw [fipsLoop, if_neg hlt, if_neg (show ¬(false = true) by simp)]
    rw [ih']
    rw [show p + (q :: qs).length = p + 1 + qs.length from by
      simp
      omega]

theorem fipsLoop_proceed_head (qs : List Int)
    (hq : ∀ q ∈ qs, q < kBitsNeeded) (b : Int) (hb : kBitsNeeded ≤ b)
    (tail : List (Option Int)) (ds : List Diag) :
    fipsLoop (qs.map some ++ some b :: tail) true 0 ds
      = .proceed (qs.length + 1)
          (ds ++ (qs.head?.map Diag.lowEntropy).toList) := by
  cases qs with
  | nil =>
    show fipsLoop (some b :: tail) true 0 ds = _
    rw [fipsLoop, if_pos hb]
    simp
  | cons q qs =>
    have hlt : ¬(kBitsNeeded ≤ q) := by
      have := hq q (List.mem_cons_self q qs)
      omega
    rw [List.map_cons, List.cons_append]
    show fipsLoop (some q :: (qs.map some ++ some b :: tail)) true 0 ds = _
    rw [fipsLoop, if_neg hlt, if_pos rfl]
    rw [fipsLoop_under qs (fun x hx => hq x (List.mem_cons_of_mem q hx))
      (some b :: tail) (0 + 1) (ds ++ [Diag.lowEntropy q])]
    rw [fipsLoop, if_pos hb]
    simp
    omega

theorem fipsLoop_aborts_head (qs : List Int)
    (hq : ∀ q ∈ qs, q < kBitsNeeded)
    (tail : List (Option Int)) (ds : List Diag) :
    fipsLoop (qs.map some ++ none :: tail) true 0 ds
      = .fipsAborted
          ((ds ++ (qs.head?.map Diag.lowEntropy).toList)
            ++ [.entcntFailed]) := by
  cases qs with
  | nil =>
    show fipsLoop (none :: tail) true 0 ds = _
    rw [fipsLoop]
    simp
  | cons q qs =>
    have hlt : ¬(kBitsNeeded ≤ q) := by
      have := hq q (List.mem_cons_self q qs)
      omega
    rw [List.map_cons, List.cons_append]
    show fipsLoop (some q :: (qs.map some ++ none :: tail)) true 0 ds = _
    rw [fipsLoop, if_neg hlt, if_pos rfl]
    rw [fipsLoop_under qs (fun x hx => hq x (List.mem_cons_of_mem q hx))
      (none :: tail) (0 + 1) (ds ++ [Diag.lowEntropy q])]
    rw [fipsLoop]
    simp

/-- C8: in FIPS builds the Selector polls the entropy-count query until a
reading of at least 256 bits: a run of under-threshold readings followed by
an adequate one proceeds after exactly one query per reading, with the
low-entropy diagnostic emitted only on the first under-threshold reading;
a failing query aborts after emitting its diagnostic; and for the query
sequence [10, 100, 256] the whole Selector issues exactly three queries
before committing the legacy device. -/
theorem fips_entropy_gate :
    (∀ (qs : List Int), (∀ q ∈ qs, q < kBitsNeeded) →
      ∀ (b : Int), kBitsNeeded ≤ b →
        ∀ (tail : List (Option Int)) (ds : List Diag),
          fipsLoop (qs.map some ++ some b :: tail) true 0 ds
            = .proceed (qs.length + 1)
                (ds ++ (qs.head?.map Diag.lowEntropy).toList)) ∧
    (∀ (qs : List Int), (∀ q ∈ qs, q < kBitsNeeded) →
      ∀ (tail : List (Option Int)) (ds : List Diag),
        fipsLoop (qs.map some ++ none :: tail) true 0 ds
          = .fipsAborted
              ((ds ++ (qs.head?.map Diag.lowEntropy).toList)
                ++ [.entcntFailed])) ∧
    (init_once 9
        ⟨false, true, ⟨1, .eother⟩, [], [], [some 10, some 100, some 256],
          ⟨0, .eother⟩, 0⟩
      = .done 9 3 [.lowEntropy 10] true) := by
  refine ⟨?_, ?_, by decide⟩
  · intro qs hq b hb tail ds
    exact fipsLoop_proceed_head qs hq b hb tail ds
  · intro qs hq tail ds
    exact fipsLoop_aborts_head qs hq tail ds

/-- Witness for C8: the query sequence [10, 100, 256] proceeds after
exactly three polls, with one diagnostic for the first reading. -/
theorem fips_entropy_gate_witness :
    (∀ q ∈ [(10 : Int), 100], q < kBitsNeeded) ∧
    kBitsNeeded ≤ (256 : Int) ∧
    fipsLoop [some 10, some 100, some 256] true 0 []
      = .proceed 3 [.lowEntropy 10] := by
  refine ⟨by decide, by decide, ?_⟩
  have h := fips_entropy_gate.1 [10, 100] (by decide) 256 (by decide) [] []
  simpa using h

/-- C9: before committing the legacy device the Selector queries the
descriptor flags and marks the handle close-on-exec: a failing `F_GETFD`
aborts unless its errno is `ENOSYS`, which is tolerated and skips the
marking; a failing `F_SETFD` always aborts; otherwise the handle is marked
and committed. -/
theorem init_once_cloexec (os : OSTraces) (f : Int)
    (hu : os.useGetrandom = false) (hf : os.fips = false) (hpos : 0 ≤ f) :
    (os.getfd.ret = -1 → os.getfd.err ≠ .enosys →
      init_once f os = .aborted []) ∧
    (os.getfd.ret = -1 → os.getfd.err = .enosys →
      init_once f os = .done f 0 [] false) ∧
    (os.getfd.ret ≠ -1 → os.setfd = -1 → init_once f os = .aborted []) ∧
    (os.getfd.ret ≠ -1 → os.setfd ≠ -1 →
      init_once f os = .done f 0 [] true) := by
  have hfk : ¬(f = kUnset) := by
    simp only [kUnset]
    omega
  have hneg : ¬(f < 0) := by omega
  refine ⟨?_, ?_, ?_, ?_⟩ <;> intro h1 h2 <;>
    simp [init_once, hu, legacyFrom, hfk, hneg, hf, h1, h2]

/-- Witness for C9: `F_GETFD` failing with `ENOSYS` is tolerated and the
handle is committed without the close-on-exec marking. -/
theorem init_once_cloexec_witness :
    ((⟨false, false, ⟨1, .eother⟩, [], [], [], ⟨-1, .enosys⟩,
        0⟩ : OSTraces).useGetrandom = false) ∧ (0 : Int) ≤ 7 ∧
    init_once 7 ⟨false, false, ⟨1, .eother⟩, [], [], [], ⟨-1, .enosys⟩, 0⟩
      = .done 7 0 [] false := by
  refine ⟨rfl, by decide, ?_⟩
  exact (init_once_cloexec
    ⟨false, false, ⟨1, .eother⟩, [], [], [], ⟨-1, .enosys⟩, 0⟩ 7
    rfl rfl (by decide)).2.1 rfl rfl

/-- Helper for C10: every normal return of the legacy half commits a
non-negative descriptor. -/
theorem legacyFrom_done_nonneg (fd0 : Int) (os : OSTraces) (ds : List Diag)
    (fd : Int) (polls : Nat) (ds2 : List Diag) (cl : Bool)
    (h : legacyFrom fd0 os ds = .done fd polls ds2 cl) : 0 ≤ fd := by
  unfold legacyFrom at h
  split at h
  · exact absurd h (by simp)
  · rename_i fd1 heq
    split at h
    · exact absurd h (by simp)
    · rename_i hnotlt
      split at h
      · exact absurd h (by simp)
      · exact absurd h (by simp)
      · split at h
        · split at h
          · exact absurd h (by simp)
          · injection h with e1 e2 e3 e4
            omega
        · split at h
          · exact absurd h (by simp)
          · injection h with e1 e2 e3 e4
            omega

/-- C10: whenever `init_once` returns normally, the committed `urandom_fd`
is either `kHaveGetrandom` (-3) or a non-negative descriptor: it is never
`kUnset` (-2) and never any other negative value, so the fill engine's
decoding of the single int as modern-mechanism versus legacy-handle is
unambiguous. -/
theorem init_once_committed_fd_valid (req : Int) (os : OSTraces) (fd : Int)
    (polls : Nat) (ds : List Diag) (cl : Bool)
    (h : init_once req os = .done fd polls ds cl) :
    fd = kHaveGetrandom ∨ 0 ≤ fd := by
  unfold init_once at h
  split at h
  · split at h
    · injection h with e1 e2 e3 e4
      exact Or.inl e1.symm
    · split at h
      · split at h
        · exact absurd h (by simp)
        · split at h
          · injection h with e1 e2 e3 e4
            exact Or.inl e1.symm
          · exact Or.inr (legacyFrom_done_nonneg _ _ _ _ _ _ _ h)
      · exact Or.inr (legacyFrom_done_nonneg _ _ _ _ _ _ _ h)
  · exact Or.inr (legacyFrom_done_nonneg _ _ _ _ _ _ _ h)

/-- Witness for C10 at a concrete successful probe. -/
theorem init_once_committed_fd_valid_witness :
    (init_once kUnset
        ⟨true, false, ⟨1, .eother⟩, [], [], [], ⟨0, .eother⟩, 0⟩
      = .done kHaveGetrandom 0 [] false) ∧
    (kHaveGetrandom = kHaveGetrandom ∨ (0 : Int) ≤ kHaveGetrandom) := by
  refine ⟨by decide, ?_⟩
  exact init_once_committed_fd_valid kUnset
    ⟨true, false, ⟨1, .eother⟩, [], [], [], ⟨0, .eother⟩, 0⟩
    kHaveGetrandom 0 [] false (by decide)
